import Mathlib

/-!
# Verification of the population / fitness / reproduction core

A shallow embedding of `model_functions.py` from `pdturney/management-theory`.
Grids of cells are `List (List Nat)` indexed `cells[x][y]` (outer index `x` is
the column, matching the numpy array of shape `(xspan, yspan)` used by the
source).  Python floats are modelled as exact rationals `ℚ`.  The Golly
simulator is an external collaborator; it enters the model as an oracle
supplying, for every competitive trial, the post-run live-cell counts for the
two colors.  Randomness (rotations, coin flips) likewise enters as explicit
oracle parameters, so every definition is a pure executable function.
-/

namespace Management

/-- A seed: a rectangular grid genome together with its cached live-cell
count, its population address and its per-population bookkeeping rows
(`history` and `similarities`).  Mirrors the `Seed` entity of the data model
(`model_classes.py` attributes, as used throughout `model_functions.py`). -/
structure Seed where
  xspan : Nat
  yspan : Nat
  cells : List (List Nat)
  num_living : Nat
  address : Nat
  history : List ℚ
  similarities : List ℚ
  deriving DecidableEq, Inhabited, Repr

/-- Read one cell of a grid: `cells[x][y]`, with dead (`0`) outside range. -/
def getCell (cells : List (List Nat)) (x y : Nat) : Nat :=
  (cells.getD x []).getD y 0

/-! ## Generic list helpers (in-place update of one element) -/

/-- Apply `f` to the element at position `n`, as a Python in-place update of
one list slot; out-of-range indices leave the list unchanged. -/
def listModify (f : α → α) : Nat → List α → List α
  | _, [] => []
  | 0, a :: as => f a :: as
  | n + 1, a :: as => a :: listModify f n as

@[simp] theorem length_listModify (f : α → α) (n : Nat) (l : List α) :
    (listModify f n l).length = l.length := by
  induction l generalizing n with
  | nil => cases n <;> rfl
  | cons a as ih =>
    cases n with
    | zero => rfl
    | succ n => simp [listModify, ih]

theorem getD_listModify (f : α → α) (n : Nat) (l : List α) (a : Nat) (d : α) :
    (listModify f n l).getD a d =
      if a = n ∧ a < l.length then f (l.getD a d) else l.getD a d := by
  induction l generalizing n a with
  | nil => simp [listModify]
  | cons x xs ih =>
    cases n with
    | zero =>
      cases a with
      | zero => simp [listModify]
      | succ a => simp [listModify]
    | succ n =>
      cases a with
      | zero => simp [listModify]
      | succ a =>
        simp only [listModify, List.getD_cons_succ, ih, List.length_cons]
        by_cases h1 : a = n
        · by_cases h2 : a < xs.length
          · simp [h1, h2, Nat.succ_lt_succ h2]
          · have : ¬ (a + 1 < xs.length + 1) := by omega
            simp [h1, h2, this]
        · have : ¬ (a + 1 = n + 1) := by omega
          simp [h1, this]

theorem getD_listModify_ne (f : α → α) (n : Nat) (l : List α) (a : Nat) (d : α)
    (h : a ≠ n) : (listModify f n l).getD a d = l.getD a d := by
  rw [getD_listModify]; simp [h]

theorem getD_listModify_self (f : α → α) (n : Nat) (l : List α) (d : α)
    (h : n < l.length) : (listModify f n l).getD n d = f (l.getD n d) := by
  rw [getD_listModify]; simp [h]

theorem mem_listModify {f : α → α} {n : Nat} {l : List α} {s : α}
    (h : s ∈ listModify f n l) : s ∈ l ∨ ∃ t ∈ l, s = f t := by
  induction l generalizing n with
  | nil => simp [listModify] at h
  | cons x xs ih =>
    cases n with
    | zero =>
      rcases List.mem_cons.mp h with h | h
      · exact Or.inr ⟨x, List.mem_cons_self x xs, h⟩
      · exact Or.inl (List.mem_cons_of_mem x h)
    | succ n =>
      rcases List.mem_cons.mp h with h | h
      · exact Or.inl (h ▸ List.mem_cons_self x xs)
      · rcases ih h with h' | ⟨t, ht, rfl⟩
        · exact Or.inl (List.mem_cons_of_mem x h')
        · exact Or.inr ⟨t, List.mem_cons_of_mem x ht, rfl⟩

theorem getD_set_ne (l : List α) (n : Nat) (v : α) (a : Nat) (d : α)
    (h : a ≠ n) : (l.set n v).getD a d = l.getD a d := by
  induction l generalizing n a with
  | nil => simp
  | cons x xs ih =>
    cases n with
    | zero =>
      cases a with
      | zero => exact absurd rfl h
      | succ a => simp [List.set]
    | succ n =>
      cases a with
      | zero => simp [List.set]
      | succ a => simpa [List.set] using ih n a (by omega)

theorem getD_set_self (l : List α) (n : Nat) (v : α) (d : α)
    (h : n < l.length) : (l.set n v).getD n d = v := by
  induction l generalizing n with
  | nil => simp at h
  | cons x xs ih =>
    cases n with
    | zero => simp [List.set]
    | succ n => simpa [List.set] using ih n (by simpa using h)

theorem getD_mem (l : List α) (n : Nat) (d : α) (h : n < l.length) :
    l.getD n d ∈ l := by
  induction l generalizing n with
  | nil => simp at h
  | cons x xs ih =>
    cases n with
    | zero => simp
    | succ n => exact List.mem_cons_of_mem x (ih n (by simpa using h))

/-- A generic invariant-preservation principle for `List.foldl`. -/
theorem foldl_inv {α β : Type _} {Q : α → Prop} (step : α → β → α) (l : List β)
    (h : ∀ a b, b ∈ l → Q a → Q (step a b)) (a0 : α) (h0 : Q a0) :
    Q (l.foldl step a0) := by
  induction l generalizing a0 with
  | nil => exact h0
  | cons b bs ih =>
    exact ih (fun a c hc ha => h a c (List.mem_cons_of_mem b hc) ha)
      (step a0 b) (h a0 b (List.mem_cons_self b bs) h0)

/-! ## The Fitness Evaluator: `score_pair` (`model_functions.py`, lines 174-308)

One competitive trial in the Immigration Game is summarised by the pair of
post-run live-cell counts `(count1, count2)` returned by the Golly simulator.
The whole randomized simulation (rotations, placements, Game-of-Life run) is
the external collaborator, so a trial outcome enters the model as an oracle
value; the arithmetic performed on it below is translated from the source.
Rotations are cell permutations, so the initial live count `num_living` of
the (copied) seeds is unchanged from trial to trial. -/

/-- The per-trial score adjustment and award (source lines 282-300):
net growth is the post-run count minus the initial live count, floored at 0;
the larger net growth wins the trial (1 point), ties give 0.5 each. -/
def trial_award (nl1 nl2 : Nat) (c : Nat × Nat) : ℚ × ℚ :=
  let count1 := if nl1 < c.1 then c.1 - nl1 else 0
  let count2 := if nl2 < c.2 then c.2 - nl2 else 0
  if count2 < count1 then (1, 0)
  else if count1 < count2 then (0, 1)
  else (1/2, 1/2)

/-- Accumulate one trial into the running scores (source lines 294-300). -/
def score_step (nl1 nl2 : Nat) (acc : ℚ × ℚ) (c : Nat × Nat) : ℚ × ℚ :=
  (acc.1 + (trial_award nl1 nl2 c).1, acc.2 + (trial_award nl1 nl2 c).2)

/-- Total scores over the trial loop (source lines 206-301). -/
def score_trials (nl1 nl2 : Nat) (trials : List (Nat × Nat)) : ℚ × ℚ :=
  trials.foldl (score_step nl1 nl2) (0, 0)

/-- `score_pair` (source lines 174-308): assert both seeds have living cells
(the asserts abort the run, modelled as `none`), run the trials, and return
the trial-averaged scores.  `trials` is the simulator oracle: the post-run
count pair of each trial, its length being `num_trials`. -/
def score_pair (s1 s2 : Seed) (trials : List (Nat × Nat)) : Option (ℚ × ℚ) :=
  if 0 < s1.num_living ∧ 0 < s2.num_living then
    let tot := score_trials s1.num_living s2.num_living trials
    some (tot.1 / trials.length, tot.2 / trials.length)
  else none

theorem trial_award_sum (nl1 nl2 : Nat) (c : Nat × Nat) :
    (trial_award nl1 nl2 c).1 + (trial_award nl1 nl2 c).2 = 1 := by
  simp only [trial_award]
  split_ifs <;> norm_num

theorem trial_award_bounds (nl1 nl2 : Nat) (c : Nat × Nat) :
    0 ≤ (trial_award nl1 nl2 c).1 ∧ (trial_award nl1 nl2 c).1 ≤ 1 ∧
    0 ≤ (trial_award nl1 nl2 c).2 ∧ (trial_award nl1 nl2 c).2 ≤ 1 := by
  simp only [trial_award]
  split_ifs <;> norm_num

theorem score_trials_foldl_sum (nl1 nl2 : Nat) (l : List (Nat × Nat)) :
    ∀ p : ℚ × ℚ, (l.foldl (score_step nl1 nl2) p).1 +
      (l.foldl (score_step nl1 nl2) p).2 = p.1 + p.2 + l.length := by
  induction l with
  | nil => intro p; simp
  | cons c cs ih =>
    intro p
    rw [List.foldl_cons, ih]
    have := trial_award_sum nl1 nl2 c
    simp only [score_step, List.length_cons]
    push_cast
    linarith

theorem score_trials_foldl_bounds (nl1 nl2 : Nat) (l : List (Nat × Nat)) :
    ∀ p : ℚ × ℚ, p.1 ≤ (l.foldl (score_step nl1 nl2) p).1 ∧
      (l.foldl (score_step nl1 nl2) p).1 ≤ p.1 + l.length ∧
      p.2 ≤ (l.foldl (score_step nl1 nl2) p).2 ∧
      (l.foldl (score_step nl1 nl2) p).2 ≤ p.2 + l.length := by
  induction l with
  | nil => intro p; simp
  | cons c cs ih =>
    intro p
    rw [List.foldl_cons]
    obtain ⟨h1, h2, h3, h4⟩ := ih (score_step nl1 nl2 p c)
    obtain ⟨b1, b2, b3, b4⟩ := trial_award_bounds nl1 nl2 c
    simp only [score_step] at *
    refine ⟨by linarith, ?_, by linarith, ?_⟩ <;>
      · simp only [List.length_cons]; push_cast; linarith

/-- C1: with both seeds alive and at least one trial, `score_pair` succeeds,
the two scores sum exactly to 1, and each lies in `[0, 1]`. -/
theorem score_pair_sum_one (s1 s2 : Seed) (trials : List (Nat × Nat))
    (h1 : 0 < s1.num_living) (h2 : 0 < s2.num_living)
    (ht : 1 ≤ trials.length) :
    (score_pair s1 s2 trials).isSome = true ∧
    ((score_pair s1 s2 trials).getD (0, 0)).1 +
      ((score_pair s1 s2 trials).getD (0, 0)).2 = 1 ∧
    0 ≤ ((score_pair s1 s2 trials).getD (0, 0)).1 ∧
    ((score_pair s1 s2 trials).getD (0, 0)).1 ≤ 1 ∧
    0 ≤ ((score_pair s1 s2 trials).getD (0, 0)).2 ∧
    ((score_pair s1 s2 trials).getD (0, 0)).2 ≤ 1 := by
  have hcond : 0 < s1.num_living ∧ 0 < s2.num_living := ⟨h1, h2⟩
  have htpos : (0 : ℚ) < trials.length := by
    have : (1 : ℚ) ≤ trials.length := by exact_mod_cast ht
    linarith
  have hsum := score_trials_foldl_sum s1.num_living s2.num_living trials (0, 0)
  have hb := score_trials_foldl_bounds s1.num_living s2.num_living trials (0, 0)
  simp only [Prod.fst, Prod.snd] at hsum hb
  obtain ⟨b1, b2, b3, b4⟩ := hb
  simp only [score_pair, if_pos hcond, score_trials, Option.getD_some,
    Option.isSome_some, true_and]
  set S1 := (trials.foldl (score_step s1.num_living s2.num_living) (0, 0)).1
  set S2 := (trials.foldl (score_step s1.num_living s2.num_living) (0, 0)).2
  constructor
  · rw [div_add_div_same, div_eq_one_iff_eq (by linarith)]
    simpa using hsum
  refine ⟨div_nonneg (by simpa using b1) (le_of_lt htpos), ?_,
    div_nonneg (by simpa using b3) (le_of_lt htpos), ?_⟩
  · rw [div_le_one htpos]; simpa using b2
  · rw [div_le_one htpos]; simpa using b4

/-- C9: an empty seed (no living cells) on either side makes `score_pair`
abort via its assertions, for every trial oracle, rather than return scores. -/
theorem score_pair_requires_living (s1 s2 : Seed) (trials : List (Nat × Nat))
    (h : s1.num_living = 0 ∨ s2.num_living = 0) :
    score_pair s1 s2 trials = none := by
  unfold score_pair
  rcases h with h | h <;> simp [h]

end Management

namespace Management

/-! ## Similarity (`model_functions.py`, lines 510-530) -/

/-- `similarity(seed0, seed1)`: zero if the two grids differ in width or
height, else the per-cell agreement count (the double loop of the source,
accumulating `1.0` per agreeing position into a float) divided by the area. -/
def similarity (seed0 seed1 : Seed) : ℚ :=
  if seed0.xspan ≠ seed1.xspan then 0
  else if seed0.yspan ≠ seed1.yspan then 0
  else
    let num_agree : ℚ := (List.range seed0.xspan).foldl (fun acc x =>
      (List.range seed0.yspan).foldl (fun acc2 y =>
        if getCell seed0.cells x y = getCell seed1.cells x y then acc2 + 1
        else acc2) acc) 0
    num_agree / (seed0.xspan * seed0.yspan)

/-- The number of cell positions at which the two seeds hold identical
colors, over seed0's spans (the quantity the spec calls "fraction of cell
positions with identical color", before dividing by the area). -/
def agreeCount (seed0 seed1 : Seed) : Nat :=
  ∑ x ∈ Finset.range seed0.xspan,
    ((Finset.range seed0.yspan).filter
      (fun y => getCell seed0.cells x y = getCell seed1.cells x y)).card

theorem foldl_count_if (p : Nat → Prop) [DecidablePred p] (l : List Nat) :
    ∀ acc : ℚ, l.foldl (fun a y => if p y then a + 1 else a) acc =
      acc + (l.countP (fun y => decide (p y)) : ℚ) := by
  induction l with
  | nil => intro acc; simp
  | cons x xs ih =>
    intro acc
    rw [List.foldl_cons, ih, List.countP_cons]
    by_cases h : p x
    · simp only [if_pos h, decide_eq_true_eq, h, if_true]
      push_cast
      ring
    · simp [h]

theorem countP_range_filter (p : Nat → Prop) [DecidablePred p] (n : Nat) :
    (List.range n).countP (fun y => decide (p y)) =
      ((Finset.range n).filter p).card := by
  induction n with
  | zero => simp
  | succ n ih =>
    rw [List.range_succ, List.countP_append, Finset.range_succ,
      Finset.filter_insert]
    by_cases h : p n
    · rw [if_pos h, Finset.card_insert_of_not_mem (by simp)]
      simp [h, ih]
    · rw [if_neg h]
      simp [h, ih]

theorem foldl_add_map (g : Nat → ℚ) (l : List Nat) :
    ∀ acc : ℚ, l.foldl (fun a x => a + g x) acc = acc + (l.map g).sum := by
  induction l with
  | nil => intro acc; simp
  | cons x xs ih => intro acc; rw [List.foldl_cons, ih]; simp; ring

theorem sum_map_range (f : Nat → ℚ) (n : Nat) :
    ((List.range n).map f).sum = ∑ x ∈ Finset.range n, f x := by
  induction n with
  | zero => simp
  | succ n ih => rw [List.range_succ, List.map_append, List.sum_append,
      Finset.sum_range_succ, ih]; simp

theorem similarity_eq_agreeCount (seed0 seed1 : Seed)
    (hx : seed0.xspan = seed1.xspan) (hy : seed0.yspan = seed1.yspan) :
    similarity seed0 seed1 =
      (agreeCount seed0 seed1 : ℚ) / (seed0.xspan * seed0.yspan) := by
  have hx' : ¬ (seed0.xspan ≠ seed1.xspan) := by simp [hx]
  have hy' : ¬ (seed0.yspan ≠ seed1.yspan) := by simp [hy]
  have hinner : ∀ (x : Nat) (acc : ℚ),
      (List.range seed0.yspan).foldl (fun acc2 y =>
        if getCell seed0.cells x y = getCell seed1.cells x y then acc2 + 1
        else acc2) acc =
      acc + (((Finset.range seed0.yspan).filter
        (fun y => getCell seed0.cells x y = getCell seed1.cells x y)).card : ℚ) := by
    intro x acc
    rw [foldl_count_if (fun y => getCell seed0.cells x y = getCell seed1.cells x y),
      countP_range_filter]
  have hout : (List.range seed0.xspan).foldl (fun acc x =>
      (List.range seed0.yspan).foldl (fun acc2 y =>
        if getCell seed0.cells x y = getCell seed1.cells x y then acc2 + 1
        else acc2) acc) 0 =
      (List.range seed0.xspan).foldl (fun acc x =>
        acc + (((Finset.range seed0.yspan).filter
          (fun y => getCell seed0.cells x y = getCell seed1.cells x y)).card : ℚ)) 0 := by
    apply List.foldl_ext
    intro acc x _
    exact hinner x acc
  simp only [similarity, if_neg hx', if_neg hy']
  rw [hout, foldl_add_map, sum_map_range, zero_add]
  congr 1
  rw [agreeCount]
  push_cast
  rfl

theorem agreeCount_comm (seed0 seed1 : Seed)
    (hx : seed0.xspan = seed1.xspan) (hy : seed0.yspan = seed1.yspan) :
    agreeCount seed0 seed1 = agreeCount seed1 seed0 := by
  unfold agreeCount
  rw [← hx, ← hy]
  apply Finset.sum_congr rfl
  intro x _
  congr 1
  apply Finset.filter_congr
  intro y _
  constructor <;> intro h <;> exact h.symm

/-- C6: `similarity` is symmetric; it is 0 whenever the widths or heights
differ; and on matching dimensions it is the fraction of cell positions
holding identical colors. -/
theorem similarity_props (a b : Seed) :
    similarity a b = similarity b a ∧
    (a.xspan ≠ b.xspan ∨ a.yspan ≠ b.yspan → similarity a b = 0) ∧
    (a.xspan = b.xspan → a.yspan = b.yspan →
      similarity a b = (agreeCount a b : ℚ) / (a.xspan * a.yspan)) := by
  refine ⟨?_, ?_, fun hx hy => similarity_eq_agreeCount a b hx hy⟩
  · by_cases hx : a.xspan = b.xspan
    · by_cases hy : a.yspan = b.yspan
      · rw [similarity_eq_agreeCount a b hx hy,
          similarity_eq_agreeCount b a hx.symm hy.symm,
          agreeCount_comm a b hx hy, hx, hy]
      · simp [similarity, hx, hy, Ne.symm hy]
    · simp [similarity, hx, Ne.symm hx]
  · intro h
    unfold similarity
    rcases h with h | h
    · simp [h]
    · by_cases hx : a.xspan = b.xspan <;> simp [hx, h]

end Management

namespace Management

/-! ## Grids and the Seed constructor -/

/-- An all-dead grid of the given dimensions. -/
def zeroGrid (xspan yspan : Nat) : List (List Nat) :=
  List.replicate xspan (List.replicate yspan 0)

/-- Write one cell of a grid in place: `cells[x][y] = v`. -/
def setCell (g : List (List Nat)) (x y : Nat) (v : Nat) : List (List Nat) :=
  listModify (fun col => col.set y v) x g

/-- Modelled from the spec: the `Seed(xspan, yspan, pop_size)` constructor of
the absent `model_classes.py`.  Per the data model (§3) and the call-site
comments in `model_functions.py` ("cells initialized to zero", "cells set to
zero"), it builds an all-zero grid of the given dimensions with bookkeeping
rows of length `pop_size`. -/
def mkSeed (xspan yspan pop_size : Nat) : Seed :=
  { xspan := xspan, yspan := yspan, cells := zeroGrid xspan yspan,
    num_living := 0, address := 0,
    history := List.replicate pop_size 0,
    similarities := List.replicate pop_size 0 }

/-- Modelled from the spec: `Seed.count_ones` of the absent
`model_classes.py` — the number of live (non-zero) cells; `num_living`
caches this count (§3). -/
def count_ones (cells : List (List Nat)) : Nat :=
  (cells.map (fun col => col.countP (fun c => decide (c ≠ 0)))).sum

theorem getD_replicate (n : Nat) (a : α) (x : Nat) (d : α) :
    (List.replicate n a).getD x d = if x < n then a else d := by
  induction n generalizing x with
  | zero => simp
  | succ n ih =>
    cases x with
    | zero => simp [List.replicate]
    | succ x =>
      rw [List.replicate_succ, List.getD_cons_succ, ih]
      simp [Nat.succ_lt_succ_iff]

theorem getCell_zeroGrid (w h x y : Nat) : getCell (zeroGrid w h) x y = 0 := by
  unfold getCell zeroGrid
  rw [getD_replicate]
  by_cases hx : x < w
  · rw [if_pos hx, getD_replicate]
    by_cases hy : y < h <;> simp [hy]
  · simp [hx]

theorem getCell_setCell_ne_col (g : List (List Nat)) (x y v x' y' : Nat)
    (h : x' ≠ x) : getCell (setCell g x y v) x' y' = getCell g x' y' := by
  unfold getCell setCell
  rw [getD_listModify_ne _ _ _ _ _ h]

/-! ## `join_seeds` / the fusion grid (source lines 830-848 and 1538-1565)

`fusion` builds its child grid with exactly the construction of
`join_seeds`: a fresh all-zero `Seed(xspan, yspan, pop_size)` with
`xspan = left width + right width + 1` and `yspan = max of the heights`,
`part1` copied into columns `0 .. part1.xspan - 1` and `part2` into columns
`part1.xspan + 1 ..` (fusion additionally recounts `num_living`). -/

def join_seeds (part1 part2 : Seed) (pop_size : Nat) : Seed :=
  let xspan := part1.xspan + part2.xspan + 1
  let yspan := max part1.yspan part2.yspan
  let whole := mkSeed xspan yspan pop_size
  let g1 := (List.range part1.xspan).foldl (fun g x =>
    (List.range part1.yspan).foldl (fun g y =>
      setCell g x y (getCell part1.cells x y)) g) whole.cells
  let g2 := (List.range part2.xspan).foldl (fun g x =>
    (List.range part2.yspan).foldl (fun g y =>
      setCell g (x + part1.xspan + 1) y (getCell part2.cells x y)) g) g1
  { whole with cells := g2 }

/-- C8: the fused seed is `leftWidth + rightWidth + 1` wide and
`max(leftHeight, rightHeight)` tall, and the single buffer column between
the two parts (column `part1.xspan`) is entirely dead. -/
theorem join_seeds_shape (part1 part2 : Seed) (pop_size : Nat) :
    (join_seeds part1 part2 pop_size).xspan = part1.xspan + part2.xspan + 1 ∧
    (join_seeds part1 part2 pop_size).yspan = max part1.yspan part2.yspan ∧
    ∀ y, getCell (join_seeds part1 part2 pop_size).cells part1.xspan y = 0 := by
  refine ⟨rfl, rfl, ?_⟩
  intro y
  have Q2 : ∀ g : List (List Nat),
      (∀ y', getCell g part1.xspan y' = 0) →
      ∀ y', getCell ((List.range part2.xspan).foldl (fun g x =>
        (List.range part2.yspan).foldl (fun g y =>
          setCell g (x + part1.xspan + 1) y (getCell part2.cells x y)) g) g)
        part1.xspan y' = 0 := by
    intro g hg
    apply foldl_inv (Q := fun g => ∀ y', getCell g part1.xspan y' = 0)
    · intro g0 x _ hQ
      apply foldl_inv (Q := fun g => ∀ y', getCell g part1.xspan y' = 0)
      · intro g1 yy _ hQ1 y'
        rw [getCell_setCell_ne_col _ _ _ _ _ _ (by omega)]
        exact hQ1 y'
      · exact hQ
    · exact hg
  have Q1 : ∀ y', getCell ((List.range part1.xspan).foldl (fun g x =>
      (List.range part1.yspan).foldl (fun g y =>
        setCell g x y (getCell part1.cells x y)) g)
      (mkSeed (part1.xspan + part2.xspan + 1) (max part1.yspan part2.yspan)
        pop_size).cells) part1.xspan y' = 0 := by
    apply foldl_inv (Q := fun g => ∀ y', getCell g part1.xspan y' = 0)
    · intro g0 x hx hQ
      apply foldl_inv (Q := fun g => ∀ y', getCell g part1.xspan y' = 0)
      · intro g1 yy _ hQ1 y'
        have hxlt : x < part1.xspan := List.mem_range.mp hx
        rw [getCell_setCell_ne_col _ _ _ _ _ _ (by omega)]
        exact hQ1 y'
      · exact hQ
    · intro y'
      exact getCell_zeroGrid _ _ _ _
  exact Q2 _ Q1 y

end Management

namespace Management

/-! ## Fission (source lines 904-986) -/

/-- Minimum of a list of naturals, with numpy's reduction order. -/
def listMin : List Nat → Nat
  | [] => 0
  | a :: rest => rest.foldl min a

/-- `np.argmin`: the index of the first occurrence of the minimum. -/
def argminFirst : List Nat → Nat
  | [] => 0
  | [_] => 0
  | a :: b :: rest =>
    if a ≤ listMin (b :: rest) then 0 else argminFirst (b :: rest) + 1

/-- `np.sum(s0.cells, axis = 0)` (source line 928): for the numpy array of
shape `(xspan, yspan)`, summing over axis 0 (the `x` axis) yields, for each
`y`, the total of `cells[x][y]` over all columns `x` — a vector of length
`yspan` indexed by the grid's vertical coordinate. -/
def axis0_sums (s : Seed) : List Nat :=
  (List.range s.yspan).map (fun y =>
    ((List.range s.xspan).map (fun x => getCell s.cells x y)).sum)

/-- The per-column live totals, indexed by column `x` (this is what the
spec and the source's own comment "most sparse column" describe: the
column-sum of each column of the seed). -/
def column_sums (s : Seed) : List Nat :=
  (List.range s.xspan).map (fun x =>
    ((List.range s.yspan).map (fun y => getCell s.cells x y)).sum)

/-- The outcome of the fission decision: either a fragment of grid columns
is kept and installed, or the operator falls back to `sexual(...)`. -/
inductive FissionOutcome where
  | fragment (cells : List (List Nat))
  | sexualFallback
  deriving DecidableEq, Repr

/-- The fission decision logic (source lines 917-949).  `coin` is the random
draw used when both sides are wide enough (`True` keeps the left part).
The split point is `np.argmin(np.sum(s0.cells, axis = 0))` exactly as in
the source; `left = cells[0:sparse_col]`, `right = cells[sparse_col+1:]`,
and a side is kept only when its width (`shape[0]`) reaches `min_s_xspan`. -/
def fission_choice (coin : Bool) (min_s_xspan : Nat) (s0 : Seed) :
    FissionOutcome :=
  if s0.xspan ≤ min_s_xspan then .sexualFallback
  else
    let sparse_col := argminFirst (axis0_sums s0)
    let left_cells := s0.cells.take sparse_col
    let right_cells := s0.cells.drop (sparse_col + 1)
    if min_s_xspan ≤ left_cells.length ∧ min_s_xspan ≤ right_cells.length then
      if coin then .fragment left_cells else .fragment right_cells
    else if min_s_xspan ≤ left_cells.length then .fragment left_cells
    else if min_s_xspan ≤ right_cells.length then .fragment right_cells
    else .sexualFallback

/-- C7: every fragment that fission installs is at least `min_s_xspan` wide,
and when the candidate is too narrow, or neither side is wide enough, the
operator falls back to sexual reproduction instead of failing. -/
theorem fission_min_width (coin : Bool) (m : Nat) (s0 : Seed) :
    (∀ c, fission_choice coin m s0 = .fragment c → m ≤ c.length) ∧
    (s0.xspan ≤ m → fission_choice coin m s0 = .sexualFallback) ∧
    ((s0.cells.take (argminFirst (axis0_sums s0))).length < m →
      (s0.cells.drop (argminFirst (axis0_sums s0) + 1)).length < m →
      fission_choice coin m s0 = .sexualFallback) := by
  by_cases h1 : s0.xspan ≤ m
  · refine ⟨?_, fun _ => by simp [fission_choice, h1],
      fun _ _ => by simp [fission_choice, h1]⟩
    intro c hc
    simp [fission_choice, h1] at hc
  · simp only [fission_choice, if_neg h1]
    refine ⟨?_, fun h => absurd h h1, ?_⟩
    · intro c hc
      split_ifs at hc with hLR hcoin hL hR
      all_goals
        injection hc with hceq
        subst hceq
        first | exact hLR.1 | exact hLR.2 | exact hL | exact hR
    · intro hL hR
      rw [if_neg (by omega), if_neg (by omega), if_neg (by omega)]

/-- The concrete 2×2 seed exhibiting the fission axis defect:
`cells = [[1,0],[1,1]]` (column 0 holds one live cell, column 1 two). -/
def c3seed : Seed :=
  { xspan := 2, yspan := 2, cells := [[1, 0], [1, 1]],
    num_living := 3, address := 0, history := [], similarities := [] }

/-- C3 (the code at the failing input): on `c3seed` the most sparse column
is column 0 (`column_sums = [1, 2]`), but the source's
`np.argmin(np.sum(cells, axis = 0))` evaluates the per-`y` sums `[2, 1]`
and yields 1, so fission splits at column 1 — keeping the columns before
it, `[[1, 0]]` — instead of splitting at the column of minimum column-sum. -/
theorem fission_argmin_wrong_axis :
    column_sums c3seed = [1, 2] ∧
    argminFirst (column_sums c3seed) = 0 ∧
    axis0_sums c3seed = [2, 1] ∧
    argminFirst (axis0_sums c3seed) = 1 ∧
    fission_choice true 1 c3seed = .fragment [[1, 0]] := by decide

/-! ## The immediate-symbiosis check of `fusion` (source lines 879-889) -/

/-- Modelled from the spec: `Seed.fitness` of the absent `model_classes.py`
— the mean of the seed's `history` row across the whole population (§3:
"Fitness of a seed is defined as the mean of its history row"). -/
def fitness (s : Seed) : ℚ := s.history.sum / s.history.length

/-- The fall-through condition of the immediate-symbiosis check exactly as
written at source line 882:
`(s0.fitness() >= s4.fitness()) or (s1.fitness() >= s4.fitness)`.
The second disjunct compares the float `s1.fitness()` with the unbound
method object `s4.fitness` (missing call parentheses); under CPython 2's
cross-type ordering a number is never `>=` a method, so the disjunct is
constantly `false` (under Python 3 the same comparison raises `TypeError`).
It never performs the intended `s1.fitness() >= s4.fitness()` test. -/
def symbiosis_fallback_code (f0 _f1 f4 : ℚ) : Bool :=
  decide (f4 ≤ f0) || false

/-- The check the fusion comments (source lines 880-889) and the spec
describe: fall back to sexual reproduction unless the fused seed is more
fit than BOTH parts, i.e. whenever either part's fitness reaches the fused
seed's fitness. -/
def symbiosis_fallback_intended (f0 f1 f4 : ℚ) : Bool :=
  decide (f4 ≤ f0) || decide (f4 ≤ f1)

/-- Parent 0 for the symbiosis-check failing input: fitness 0. -/
def c4s0 : Seed :=
  { xspan := 1, yspan := 1, cells := [[1]], num_living := 1,
    address := 0, history := [0], similarities := [1] }

/-- Parent 1 for the symbiosis-check failing input: fitness 1. -/
def c4s1 : Seed :=
  { xspan := 1, yspan := 1, cells := [[1]], num_living := 1,
    address := 1, history := [1], similarities := [1] }

/-- Fused seed for the symbiosis-check failing input: fitness 1/2. -/
def c4s4 : Seed :=
  { xspan := 3, yspan := 1, cells := [[1], [0], [1]], num_living := 2,
    address := 2, history := [1/2], similarities := [1] }

/-- C4 (the code at the failing input): parent `c4s1` has fitness 1, far
above the fused seed's 1/2, so the documented check should fall back to
sexual reproduction; the code's condition evaluates to `false` and keeps
the fused seed, because its second disjunct never compares the fitnesses. -/
theorem symbiosis_check_ignores_second_parent :
    fitness c4s0 = 0 ∧ fitness c4s1 = 1 ∧ fitness c4s4 = 1/2 ∧
    symbiosis_fallback_code (fitness c4s0) (fitness c4s1) (fitness c4s4)
      = false ∧
    symbiosis_fallback_intended (fitness c4s0) (fitness c4s1) (fitness c4s4)
      = true := by
  have h0 : fitness c4s0 = 0 := by norm_num [fitness, c4s0]
  have h1 : fitness c4s1 = 1 := by norm_num [fitness, c4s1]
  have h4 : fitness c4s4 = 1/2 := by norm_num [fitness, c4s4]
  refine ⟨h0, h1, h4, ?_, ?_⟩
  · rw [h0, h1, h4]
    norm_num [symbiosis_fallback_code]
  · rw [h0, h1, h4]
    norm_num [symbiosis_fallback_intended]

end Management

namespace Management

/-! ## The Population Ledger: `update_history`, `update_similarity` and the
per-replacement rebuild loop (source lines 313-361 and 633-646)

A population is a `List Seed`; `pop[i].history[j]` and
`pop[i].similarities[j]` are the two matrices.  The in-place Python
assignments `pop[i].history[j] = v` / `pop[i].similarities[j] = v` become
`listModify` with the row writers below. -/

/-- The in-place assignment `s.history[k] = v`. -/
def setHistRow (k : Nat) (v : ℚ) (s : Seed) : Seed :=
  { s with history := s.history.set k v }

/-- The in-place assignment `s.similarities[k] = v`. -/
def setSimRow (k : Nat) (v : ℚ) (s : Seed) : Seed :=
  { s with similarities := s.similarities.set k v }

/-- The history matrix entry `pop[i].history[j]`. -/
def histEntry (pop : List Seed) (i j : Nat) : ℚ :=
  (pop.getD i default).history.getD j 0

/-- The similarity matrix entry `pop[i].similarities[j]`. -/
def simEntry (pop : List Seed) (i j : Nat) : ℚ :=
  (pop.getD i default).similarities.getD j 0

/-- `update_history(g, pop, i, j, ...)` (source lines 313-338): a self-pair
is fixed at 0.5 with no simulator call; otherwise `score_pair` runs and the
two directional outcomes are written to `pop[i].history[j]` and
`pop[j].history[i]`.  `trials` is the simulator oracle for this pairing.
(A `none` from `score_pair` is the aborting assert; the population is
returned unchanged there, a branch unreachable when every seed has living
cells.) -/
def update_history (trials : List (Nat × Nat)) (pop : List Seed) (i j : Nat) :
    List Seed :=
  if i = j then
    listModify (setHistRow i (1/2)) i pop
  else
    match score_pair (pop.getD i default) (pop.getD j default) trials with
    | some q =>
      listModify (setHistRow i q.2) j (listModify (setHistRow j q.1) i pop)
    | none => pop

/-- `update_similarity(pop, i, j)` (source lines 342-361): a self-pair is
fixed at 1.0; otherwise the one symmetric similarity value is written to
both `pop[i].similarities[j]` and `pop[j].similarities[i]`. -/
def update_similarity (pop : List Seed) (i j : Nat) : List Seed :=
  if i = j then
    listModify (setSimRow i 1) i pop
  else
    listModify (setSimRow i (similarity (pop.getD i default) (pop.getD j default))) j
      (listModify (setSimRow j (similarity (pop.getD i default) (pop.getD j default))) i pop)

/-- One iteration of the rebuild loop (source lines 643-646):
`update_history(g, pop, i, j, ...)` then `update_similarity(pop, i, j)`. -/
def rebuild_step (oracle : Nat → List (Nat × Nat)) (i : Nat)
    (p : List Seed) (j : Nat) : List Seed :=
  update_similarity (update_history (oracle j) p i j) i j

/-- The rebuild loop every reproduction operator runs after installing a new
seed at position `i` (e.g. `uniform_asexual`, source lines 642-646): for
every `j` in the population, `update_history` then `update_similarity`.
`oracle j` supplies the simulator trials for the pairing with seed `j`. -/
def rebuild_at (oracle : Nat → List (Nat × Nat)) (pop : List Seed) (i : Nat) :
    List Seed :=
  (List.range pop.length).foldl (rebuild_step oracle i) pop

/-- Installing a new seed: `s1.address = i; pop[i] = s1` (source lines
633-635). -/
def replace_seed (pop : List Seed) (i : Nat) (s : Seed) : List Seed :=
  listModify (fun _ => { s with address := i }) i pop

/-- A full replacement as performed by each reproduction operator:
install the new seed, then rebuild row and column `i` of both matrices. -/
def replace_and_rebuild (oracle : Nat → List (Nat × Nat)) (pop : List Seed)
    (i : Nat) (s : Seed) : List Seed :=
  rebuild_at oracle (replace_seed pop i s) i

/-! ### Entry-access lemmas -/

theorem histEntry_listModify_setSimRow (k : Nat) (v : ℚ) (n : Nat)
    (p : List Seed) (a b : Nat) :
    histEntry (listModify (setSimRow k v) n p) a b = histEntry p a b := by
  unfold histEntry
  rw [getD_listModify]
  split_ifs <;> rfl

theorem simEntry_listModify_setHistRow (k : Nat) (v : ℚ) (n : Nat)
    (p : List Seed) (a b : Nat) :
    simEntry (listModify (setHistRow k v) n p) a b = simEntry p a b := by
  unfold simEntry
  rw [getD_listModify]
  split_ifs <;> rfl

theorem histEntry_listModify_setHistRow_ne (k : Nat) (v : ℚ) (n : Nat)
    (p : List Seed) (a b : Nat) (h : ¬(a = n ∧ b = k)) :
    histEntry (listModify (setHistRow k v) n p) a b = histEntry p a b := by
  unfold histEntry
  rw [getD_listModify]
  split_ifs with h2
  · have hb : b ≠ k := fun hb => h ⟨h2.1, hb⟩
    exact getD_set_ne _ _ _ _ _ hb
  · rfl

theorem simEntry_listModify_setSimRow_ne (k : Nat) (v : ℚ) (n : Nat)
    (p : List Seed) (a b : Nat) (h : ¬(a = n ∧ b = k)) :
    simEntry (listModify (setSimRow k v) n p) a b = simEntry p a b := by
  unfold simEntry
  rw [getD_listModify]
  split_ifs with h2
  · have hb : b ≠ k := fun hb => h ⟨h2.1, hb⟩
    exact getD_set_ne _ _ _ _ _ hb
  · rfl

theorem histEntry_listModify_setHistRow_self (v : ℚ) (n b : Nat)
    (p : List Seed) (hn : n < p.length)
    (hb : b < (p.getD n default).history.length) :
    histEntry (listModify (setHistRow b v) n p) n b = v := by
  unfold histEntry
  rw [getD_listModify_self _ _ _ _ hn]
  exact getD_set_self _ _ _ _ hb

theorem simEntry_listModify_setSimRow_self (v : ℚ) (n b : Nat)
    (p : List Seed) (hn : n < p.length)
    (hb : b < (p.getD n default).similarities.length) :
    simEntry (listModify (setSimRow b v) n p) n b = v := by
  unfold simEntry
  rw [getD_listModify_self _ _ _ _ hn]
  exact getD_set_self _ _ _ _ hb

/-- `update_similarity` never changes a history entry. -/
theorem histEntry_update_similarity (p : List Seed) (i j a b : Nat) :
    histEntry (update_similarity p i j) a b = histEntry p a b := by
  unfold update_similarity
  split_ifs with h
  · exact histEntry_listModify_setSimRow _ _ _ _ _ _
  · rw [histEntry_listModify_setSimRow, histEntry_listModify_setSimRow]

/-- `update_history` never changes a similarity entry. -/
theorem simEntry_update_history (tr : List (Nat × Nat)) (p : List Seed)
    (i j a b : Nat) :
    simEntry (update_history tr p i j) a b = simEntry p a b := by
  unfold update_history
  split_ifs with h
  · exact simEntry_listModify_setHistRow _ _ _ _ _ _
  · cases hsc : score_pair (p.getD i default) (p.getD j default) tr with
    | none => rfl
    | some q =>
      dsimp only
      rw [simEntry_listModify_setHistRow, simEntry_listModify_setHistRow]

/-- A history entry away from the updated pair keeps its value. -/
theorem histEntry_update_history_ne (tr : List (Nat × Nat)) (p : List Seed)
    (i j a b : Nat) (h1 : ¬(a = i ∧ b = j)) (h2 : ¬(a = j ∧ b = i)) :
    histEntry (update_history tr p i j) a b = histEntry p a b := by
  unfold update_history
  split_ifs with h
  · subst h
    exact histEntry_listModify_setHistRow_ne _ _ _ _ _ _ h1
  · cases hsc : score_pair (p.getD i default) (p.getD j default) tr with
    | none => rfl
    | some q =>
      dsimp only
      rw [histEntry_listModify_setHistRow_ne _ _ _ _ _ _ h2,
        histEntry_listModify_setHistRow_ne _ _ _ _ _ _ h1]

/-- A similarity entry away from the updated pair keeps its value. -/
theorem simEntry_update_similarity_ne (p : List Seed) (i j a b : Nat)
    (h1 : ¬(a = i ∧ b = j)) (h2 : ¬(a = j ∧ b = i)) :
    simEntry (update_similarity p i j) a b = simEntry p a b := by
  unfold update_similarity
  split_ifs with h
  · subst h
    exact simEntry_listModify_setSimRow_ne _ _ _ _ _ _ h1
  · rw [simEntry_listModify_setSimRow_ne _ _ _ _ _ _ h2,
      simEntry_listModify_setSimRow_ne _ _ _ _ _ _ h1]

/-- The self-pair history write: `pop[i].history[i] = 0.5`. -/
theorem histEntry_update_history_diag (tr : List (Nat × Nat)) (p : List Seed)
    (i : Nat) (hi : i < p.length)
    (hlen : i < (p.getD i default).history.length) :
    histEntry (update_history tr p i i) i i = 1/2 := by
  unfold update_history
  rw [if_pos rfl]
  exact histEntry_listModify_setHistRow_self _ _ _ _ hi hlen

/-- The self-pair similarity write: `pop[i].similarities[i] = 1.0`. -/
theorem simEntry_update_similarity_diag (p : List Seed) (i : Nat)
    (hi : i < p.length)
    (hlen : i < (p.getD i default).similarities.length) :
    simEntry (update_similarity p i i) i i = 1 := by
  unfold update_similarity
  rw [if_pos rfl]
  exact simEntry_listModify_setSimRow_self _ _ _ _ hi hlen

/-- The two directional scores written by a non-self `update_history`. -/
theorem histEntry_update_history_some (tr : List (Nat × Nat)) (p : List Seed)
    (i j : Nat) (q : ℚ × ℚ) (hij : i ≠ j)
    (hi : i < p.length) (hj : j < p.length)
    (hsc : score_pair (p.getD i default) (p.getD j default) tr = some q)
    (hli : j < (p.getD i default).history.length)
    (hlj : i < (p.getD j default).history.length) :
    histEntry (update_history tr p i j) i j = q.1 ∧
    histEntry (update_history tr p i j) j i = q.2 := by
  unfold update_history
  rw [if_neg hij, hsc]
  dsimp only
  constructor
  · unfold histEntry
    rw [getD_listModify_ne _ _ _ _ _ hij,
      getD_listModify_self _ _ _ _ hi]
    exact getD_set_self _ _ _ _ hli
  · unfold histEntry
    have hX : (listModify (setHistRow j q.1) i p).getD j default
        = p.getD j default := getD_listModify_ne _ _ _ _ _ (Ne.symm hij)
    rw [getD_listModify_self _ _ _ _ (by simpa using hj), hX]
    exact getD_set_self _ _ _ _ hlj

end Management

namespace Management

/-! ### Well-formedness invariants and their preservation -/

/-- Ledger well-formedness: the population and every seed's bookkeeping
rows have the population size `n`. -/
def wfLens (n : Nat) (pop : List Seed) : Prop :=
  pop.length = n ∧ ∀ s ∈ pop, s.history.length = n ∧ s.similarities.length = n

/-- Every population member has at least one living cell (the precondition
`score_pair` asserts). -/
def allLiving (pop : List Seed) : Prop := ∀ s ∈ pop, 0 < s.num_living

theorem wfLens_getD {n : Nat} {p : List Seed} (h : wfLens n p) (k : Nat)
    (hk : k < n) :
    (p.getD k default).history.length = n ∧
    (p.getD k default).similarities.length = n :=
  h.2 _ (getD_mem _ _ _ (by rw [h.1]; exact hk))

theorem wfLens_listModify {n : Nat} (f : Seed → Seed)
    (hf : ∀ s : Seed, (f s).history.length = s.history.length ∧
      (f s).similarities.length = s.similarities.length)
    (k : Nat) {p : List Seed} (h : wfLens n p) :
    wfLens n (listModify f k p) := by
  refine ⟨by simp [h.1], ?_⟩
  intro s hs
  rcases mem_listModify hs with h' | ⟨t, ht, rfl⟩
  · exact h.2 s h'
  · exact ⟨(hf t).1.trans (h.2 t ht).1, (hf t).2.trans (h.2 t ht).2⟩

theorem allLiving_listModify (f : Seed → Seed)
    (hf : ∀ s : Seed, (f s).num_living = s.num_living)
    (k : Nat) {p : List Seed} (h : allLiving p) :
    allLiving (listModify f k p) := by
  intro s hs
  rcases mem_listModify hs with h' | ⟨t, ht, rfl⟩
  · exact h s h'
  · rw [hf t]; exact h t ht

theorem wfLens_update_history {n : Nat} (tr : List (Nat × Nat))
    {p : List Seed} (i j : Nat) (h : wfLens n p) :
    wfLens n (update_history tr p i j) := by
  unfold update_history
  split_ifs with hd
  · exact wfLens_listModify _ (fun s => by simp [setHistRow]) _ h
  · cases hsc : score_pair (p.getD i default) (p.getD j default) tr with
    | none => exact h
    | some q =>
      exact wfLens_listModify _ (fun s => by simp [setHistRow]) _
        (wfLens_listModify _ (fun s => by simp [setHistRow]) _ h)

theorem wfLens_update_similarity {n : Nat} {p : List Seed} (i j : Nat)
    (h : wfLens n p) : wfLens n (update_similarity p i j) := by
  unfold update_similarity
  split_ifs with hd
  · exact wfLens_listModify _ (fun s => by simp [setSimRow]) _ h
  · exact wfLens_listModify _ (fun s => by simp [setSimRow]) _
      (wfLens_listModify _ (fun s => by simp [setSimRow]) _ h)

theorem allLiving_update_history (tr : List (Nat × Nat)) {p : List Seed}
    (i j : Nat) (h : allLiving p) : allLiving (update_history tr p i j) := by
  unfold update_history
  split_ifs with hd
  · exact allLiving_listModify (setHistRow i (1/2)) (fun s => rfl) _ h
  · cases hsc : score_pair (p.getD i default) (p.getD j default) tr with
    | none => exact h
    | some q =>
      dsimp only
      exact allLiving_listModify (setHistRow i q.2) (fun s => rfl) _
        (allLiving_listModify (setHistRow j q.1) (fun s => rfl) _ h)

theorem allLiving_update_similarity {p : List Seed} (i j : Nat)
    (h : allLiving p) : allLiving (update_similarity p i j) := by
  unfold update_similarity
  split_ifs with hd
  · exact allLiving_listModify (setSimRow i 1) (fun s => rfl) _ h
  · exact allLiving_listModify
      (setSimRow i (similarity (p.getD i default) (p.getD j default)))
      (fun s => rfl) _
      (allLiving_listModify
        (setSimRow j (similarity (p.getD i default) (p.getD j default)))
        (fun s => rfl) _ h)

theorem wfLens_replace_seed {n : Nat} {pop : List Seed} (i : Nat) (s : Seed)
    (h : wfLens n pop) (hs1 : s.history.length = n)
    (hs2 : s.similarities.length = n) :
    wfLens n (replace_seed pop i s) := by
  refine ⟨by simp [replace_seed, h.1], ?_⟩
  intro t ht
  rcases mem_listModify ht with h' | ⟨u, hu, rfl⟩
  · exact h.2 t h'
  · exact ⟨hs1, hs2⟩

theorem allLiving_replace_seed {pop : List Seed} (i : Nat) (s : Seed)
    (h : allLiving pop) (hs : 0 < s.num_living) :
    allLiving (replace_seed pop i s) := by
  intro t ht
  rcases mem_listModify ht with h' | ⟨u, hu, rfl⟩
  · exact h t h'
  · exact hs

theorem histEntry_replace_seed_ne (pop : List Seed) (i : Nat) (s : Seed)
    (a b : Nat) (ha : a ≠ i) :
    histEntry (replace_seed pop i s) a b = histEntry pop a b := by
  unfold histEntry replace_seed
  rw [getD_listModify_ne _ _ _ _ _ ha]

/-- `score_pair` succeeds exactly when both seeds have living cells. -/
theorem score_pair_isSome_of_living (s1 s2 : Seed) (tr : List (Nat × Nat))
    (h1 : 0 < s1.num_living) (h2 : 0 < s2.num_living) :
    ∃ q, score_pair s1 s2 tr = some q := by
  unfold score_pair
  rw [if_pos ⟨h1, h2⟩]
  exact ⟨_, rfl⟩

/-- The two scores of a successful `score_pair` over a nonempty trial list
sum to 1 (each trial awards a total of one point, and the totals are
divided by the number of trials). -/
theorem score_pair_some_sum (s1 s2 : Seed) (tr : List (Nat × Nat))
    (q : ℚ × ℚ) (hsc : score_pair s1 s2 tr = some q) (ht : tr ≠ []) :
    q.1 + q.2 = 1 := by
  unfold score_pair at hsc
  split_ifs at hsc with h
  · injection hsc with hq
    subst hq
    have hsum := score_trials_foldl_sum s1.num_living s2.num_living tr (0, 0)
    have htpos : (0 : ℚ) < tr.length := by
      have : tr.length ≠ 0 := fun h0 => ht (List.length_eq_zero.mp h0)
      exact_mod_cast Nat.pos_of_ne_zero this
    dsimp only [score_trials]
    rw [div_add_div_same, div_eq_one_iff_eq (ne_of_gt htpos)]
    simpa using hsum

/-- Invariant propagation along a counted fold over `List.range' s cnt`. -/
theorem foldl_range'_inv {α : Type _} (step : α → Nat → α)
    (R : Nat → α → Prop) (n : Nat)
    (hstep : ∀ m p, m < n → R m p → R (m + 1) (step p m)) :
    ∀ (cnt s : Nat) (p : α), s + cnt ≤ n → R s p →
      R (s + cnt) (List.foldl step p (List.range' s cnt)) := by
  intro cnt
  induction cnt with
  | zero => intro s p _ hR; simpa using hR
  | succ cnt ih =>
    intro s p h hR
    rw [List.range'_succ, List.foldl_cons]
    have hrec := ih (s + 1) (step p s) (by omega)
      (hstep s p (by omega) hR)
    have heq : s + (cnt + 1) = (s + 1) + cnt := by omega
    rw [heq]
    exact hrec

end Management

namespace Management

/-- C5: after any replacement at position `i` (installing the new seed and
running the rebuild loop), the diagonal entries are pinned to the self-pair
constants: `history[i][i] = 0.5` and `similarities[i][i] = 1.0`.  The
theorem holds for EVERY simulator oracle — the diagonal values never come
from a simulator call. -/
theorem replace_diag_fixed (oracle : Nat → List (Nat × Nat)) (pop : List Seed)
    (i n : Nat) (s : Seed)
    (hwf : wfLens n pop) (hi : i < n)
    (hs1 : s.history.length = n) (hs2 : s.similarities.length = n) :
    histEntry (replace_and_rebuild oracle pop i s) i i = 1/2 ∧
    simEntry (replace_and_rebuild oracle pop i s) i i = 1 := by
  have hwf0 : wfLens n (replace_seed pop i s) :=
    wfLens_replace_seed i s hwf hs1 hs2
  have hstep : ∀ m p, m < n →
      (wfLens n p ∧ (i < m → histEntry p i i = 1/2 ∧ simEntry p i i = 1)) →
      (wfLens n (rebuild_step oracle i p m) ∧
        (i < m + 1 → histEntry (rebuild_step oracle i p m) i i = 1/2 ∧
          simEntry (rebuild_step oracle i p m) i i = 1)) := by
    intro m p hm hR
    obtain ⟨hw, hdiag⟩ := hR
    have hw1 : wfLens n (update_history (oracle m) p i m) :=
      wfLens_update_history _ i m hw
    refine ⟨wfLens_update_similarity i m hw1, ?_⟩
    intro him
    by_cases hmi : m = i
    · subst hmi
      refine ⟨?_, ?_⟩
      · unfold rebuild_step
        rw [histEntry_update_similarity]
        exact histEntry_update_history_diag _ _ _ (by rw [hw.1]; exact hm)
          (by rw [(wfLens_getD hw m hm).1]; exact hm)
      · unfold rebuild_step
        exact simEntry_update_similarity_diag _ _ (by rw [hw1.1]; exact hm)
          (by rw [(wfLens_getD hw1 m hm).2]; exact hm)
    · have hi_lt : i < m := by omega
      obtain ⟨hh, hsim⟩ := hdiag hi_lt
      have h1 : ¬(i = i ∧ i = m) := fun hc => hmi hc.2.symm
      have h2 : ¬(i = m ∧ i = i) := fun hc => hmi hc.1.symm
      refine ⟨?_, ?_⟩
      · unfold rebuild_step
        rw [histEntry_update_similarity,
          histEntry_update_history_ne _ _ _ _ _ _ h1 h2]
        exact hh
      · unfold rebuild_step
        rw [simEntry_update_similarity_ne _ _ _ _ _ h1 h2,
          simEntry_update_history]
        exact hsim
  have h0 : wfLens n (replace_seed pop i s) ∧
      (i < 0 → histEntry (replace_seed pop i s) i i = 1/2 ∧
        simEntry (replace_seed pop i s) i i = 1) := ⟨hwf0, by omega⟩
  have hfold := foldl_range'_inv (rebuild_step oracle i)
    (fun m p => wfLens n p ∧
      (i < m → histEntry p i i = 1/2 ∧ simEntry p i i = 1))
    n hstep n 0 (replace_seed pop i s) (by omega) h0
  have heq : replace_and_rebuild oracle pop i s
      = List.foldl (rebuild_step oracle i) (replace_seed pop i s)
          (List.range' 0 n) := by
    unfold replace_and_rebuild rebuild_at
    rw [hwf0.1, List.range_eq_range']
  rw [heq]
  exact hfold.2 (by omega)

end Management

namespace Management

/-- C2 (amended): the history matrix is not symmetric but COMPLEMENTARY:
`history[a][b] + history[b][a] = 1` for `a ≠ b`, with `0.5` on the
diagonal.  A full replacement (install at `i` plus rebuild loop) preserves
this invariant for every simulator oracle that runs at least one trial per
pairing. -/
theorem hist_complementary_after_replace (oracle : Nat → List (Nat × Nat))
    (pop : List Seed) (i n : Nat) (s : Seed)
    (hwf : wfLens n pop) (hliv : allLiving pop) (hi : i < n)
    (hs1 : s.history.length = n) (hs2 : s.similarities.length = n)
    (hsliv : 0 < s.num_living)
    (htr : ∀ j, oracle j ≠ [])
    (hpre : ∀ a b, a < n → b < n → a ≠ i → b ≠ i → a ≠ b →
      histEntry pop a b + histEntry pop b a = 1)
    (hprediag : ∀ a, a < n → a ≠ i → histEntry pop a a = 1/2) :
    (∀ a b, a < n → b < n → a ≠ b →
      histEntry (replace_and_rebuild oracle pop i s) a b +
        histEntry (replace_and_rebuild oracle pop i s) b a = 1) ∧
    (∀ a, a < n →
      histEntry (replace_and_rebuild oracle pop i s) a a = 1/2) := by
  have hwf0 : wfLens n (replace_seed pop i s) :=
    wfLens_replace_seed i s hwf hs1 hs2
  have hlv0 : allLiving (replace_seed pop i s) :=
    allLiving_replace_seed i s hliv hsliv
  have hstep : ∀ m p, m < n →
      (wfLens n p ∧ allLiving p ∧
        (∀ j, j < m → j ≠ i →
          histEntry p i j + histEntry p j i = 1) ∧
        (i < m → histEntry p i i = 1/2) ∧
        (∀ a b, a < n → b < n → a ≠ i → b ≠ i →
          histEntry p a b = histEntry (replace_seed pop i s) a b)) →
      (wfLens n (rebuild_step oracle i p m) ∧
        allLiving (rebuild_step oracle i p m) ∧
        (∀ j, j < m + 1 → j ≠ i →
          histEntry (rebuild_step oracle i p m) i j +
            histEntry (rebuild_step oracle i p m) j i = 1) ∧
        (i < m + 1 → histEntry (rebuild_step oracle i p m) i i = 1/2) ∧
        (∀ a b, a < n → b < n → a ≠ i → b ≠ i →
          histEntry (rebuild_step oracle i p m) a b =
            histEntry (replace_seed pop i s) a b)) := by
    intro m p hm hR
    obtain ⟨hw, hlv, hpair, hdiag, hold⟩ := hR
    have hw1 : wfLens n (update_history (oracle m) p i m) :=
      wfLens_update_history _ i m hw
    refine ⟨wfLens_update_similarity i m hw1,
      allLiving_update_similarity i m (allLiving_update_history _ i m hlv),
      ?_, ?_, ?_⟩
    · -- complementarity of the pairs (i, j) for j ≤ m
      intro j hj hji
      by_cases hmi : m = i
      · subst hmi
        have hjm : j < m := by omega
        unfold rebuild_step
        rw [histEntry_update_similarity, histEntry_update_similarity,
          histEntry_update_history_ne _ _ _ _ _ _
            (fun hc => hji hc.2) (fun hc => hji hc.2),
          histEntry_update_history_ne _ _ _ _ _ _
            (fun hc => hji hc.1) (fun hc => hji hc.1)]
        exact hpair j hjm hji
      · have hmi' : i ≠ m := fun h => hmi h.symm
        have hpi : 0 < (p.getD i default).num_living :=
          hlv _ (getD_mem _ _ _ (by rw [hw.1]; exact hi))
        have hpm : 0 < (p.getD m default).num_living :=
          hlv _ (getD_mem _ _ _ (by rw [hw.1]; exact hm))
        obtain ⟨q, hq⟩ :=
          score_pair_isSome_of_living _ _ (oracle m) hpi hpm
        have hqsum : q.1 + q.2 = 1 :=
          score_pair_some_sum _ _ _ _ hq (htr m)
        by_cases hjm : j = m
        · subst hjm
          have hvals := histEntry_update_history_some (oracle j) p i j q
            hmi' (by rw [hw.1]; exact hi) (by rw [hw.1]; exact hm) hq
            (by rw [(wfLens_getD hw i hi).1]; exact hm)
            (by rw [(wfLens_getD hw j hm).1]; exact hi)
          unfold rebuild_step
          rw [histEntry_update_similarity, histEntry_update_similarity,
            hvals.1, hvals.2]
          exact hqsum
        · have hjm' : j < m := by omega
          unfold rebuild_step
          rw [histEntry_update_similarity, histEntry_update_similarity,
            histEntry_update_history_ne _ _ _ _ _ _
              (fun hc => hjm hc.2) (fun hc => hmi' hc.1),
            histEntry_update_history_ne _ _ _ _ _ _
              (fun hc => hji hc.1) (fun hc => hjm hc.1)]
          exact hpair j hjm' hji
    · -- the diagonal entry (i, i)
      intro him
      by_cases hmi : m = i
      · subst hmi
        unfold rebuild_step
        rw [histEntry_update_similarity]
        exact histEntry_update_history_diag _ _ _ (by rw [hw.1]; exact hm)
          (by rw [(wfLens_getD hw m hm).1]; exact hm)
      · have hi_lt : i < m := by omega
        unfold rebuild_step
        rw [histEntry_update_similarity,
          histEntry_update_history_ne _ _ _ _ _ _
            (fun hc => hmi hc.2.symm) (fun hc => hmi hc.1.symm)]
        exact hdiag hi_lt
    · -- entries not involving i keep their installed values
      intro a b ha hb hai hbi
      unfold rebuild_step
      rw [histEntry_update_similarity,
        histEntry_update_history_ne _ _ _ _ _ _
          (fun hc => hai hc.1) (fun hc => hbi hc.2)]
      exact hold a b ha hb hai hbi
  have h0 : wfLens n (replace_seed pop i s) ∧
      allLiving (replace_seed pop i s) ∧
      (∀ j, j < 0 → j ≠ i →
        histEntry (replace_seed pop i s) i j +
          histEntry (replace_seed pop i s) j i = 1) ∧
      (i < 0 → histEntry (replace_seed pop i s) i i = 1/2) ∧
      (∀ a b, a < n → b < n → a ≠ i → b ≠ i →
        histEntry (replace_seed pop i s) a b =
          histEntry (replace_seed pop i s) a b) :=
    ⟨hwf0, hlv0, fun j hj _ => absurd hj (by omega), by omega,
      fun a b _ _ _ _ => rfl⟩
  have hfold := foldl_range'_inv (rebuild_step oracle i)
    (fun m p => wfLens n p ∧ allLiving p ∧
      (∀ j, j < m → j ≠ i →
        histEntry p i j + histEntry p j i = 1) ∧
      (i < m → histEntry p i i = 1/2) ∧
      (∀ a b, a < n → b < n → a ≠ i → b ≠ i →
        histEntry p a b = histEntry (replace_seed pop i s) a b))
    n hstep n 0 (replace_seed pop i s) (by omega) h0
  have heq : replace_and_rebuild oracle pop i s
      = List.foldl (rebuild_step oracle i) (replace_seed pop i s)
          (List.range' 0 n) := by
    unfold replace_and_rebuild rebuild_at
    rw [hwf0.1, List.range_eq_range']
  obtain ⟨hwF, hlvF, hpairF, hdiagF, holdF⟩ := hfold
  rw [heq] at *
  constructor
  · intro a b ha hb hab
    by_cases hai : a = i
    · subst hai
      exact hpairF b (by omega) (fun h => hab h.symm)
    · by_cases hbi : b = i
      · subst hbi
        have := hpairF a (by omega) hai
        linarith
      · rw [holdF a b ha hb hai hbi, holdF b a hb ha hbi hai,
          histEntry_replace_seed_ne _ _ _ _ _ hai,
          histEntry_replace_seed_ne _ _ _ _ _ hbi]
        exact hpre a b ha hb hai hbi hab
  · intro a ha
    by_cases hai : a = i
    · subst hai
      exact hdiagF (by omega)
    · rw [holdF a a ha ha hai hai,
        histEntry_replace_seed_ne _ _ _ _ _ hai]
      exact hprediag a ha hai

end Management

namespace Management

/-- First seed of the concrete two-member population. -/
def c2seedA : Seed :=
  { xspan := 1, yspan := 1, cells := [[1]], num_living := 1,
    address := 0, history := [1/2, 1/2], similarities := [1, 1] }

/-- Second seed of the concrete two-member population. -/
def c2seedB : Seed :=
  { xspan := 1, yspan := 1, cells := [[1]], num_living := 1,
    address := 1, history := [1/2, 1/2], similarities := [1, 1] }

/-- A concrete two-member population whose history matrix is all 0.5. -/
def c2pop : List Seed := [c2seedA, c2seedB]

/-- A simulator oracle: one trial per pairing, ending with 5 red cells and
0 blue cells (seed 1 wins outright). -/
def c2oracle : Nat → List (Nat × Nat) := fun _ => [(5, 0)]

/-- C2 (counterexample to symmetry): after a complete reproduction step
(replacement at address 0 plus the full rebuild loop) on the concrete
population, `history[0][1] = 1` but `history[1][0] = 0`: the history matrix
is NOT symmetric. -/
theorem hist_not_symmetric :
    histEntry (replace_and_rebuild c2oracle c2pop 0 c2seedA) 0 1 = 1 ∧
    histEntry (replace_and_rebuild c2oracle c2pop 0 c2seedA) 1 0 = 0 ∧
    histEntry (replace_and_rebuild c2oracle c2pop 0 c2seedA) 0 1 ≠
      histEntry (replace_and_rebuild c2oracle c2pop 0 c2seedA) 1 0 := by
  have h01 : histEntry (replace_and_rebuild c2oracle c2pop 0 c2seedA) 0 1
      = 1 := by
    norm_num [replace_and_rebuild, rebuild_at, rebuild_step, replace_seed,
      update_history, update_similarity, score_pair, score_trials,
      score_step, trial_award, similarity, listModify, setHistRow,
      setSimRow, histEntry, c2pop, c2seedA, c2seedB, c2oracle,
      List.range_succ, getCell]
  have h10 : histEntry (replace_and_rebuild c2oracle c2pop 0 c2seedA) 1 0
      = 0 := by
    norm_num [replace_and_rebuild, rebuild_at, rebuild_step, replace_seed,
      update_history, update_similarity, score_pair, score_trials,
      score_step, trial_award, similarity, listModify, setHistRow,
      setSimRow, histEntry, c2pop, c2seedA, c2seedB, c2oracle,
      List.range_succ, getCell]
  refine ⟨h01, h10, ?_⟩
  rw [h01, h10]
  norm_num

end Management

namespace Management

/-! ## The heap discipline of `score_pair` (source lines 182-215)

To state that `score_pair` never mutates its caller's seeds, the Python
object heap is made explicit: a store of seed objects addressed by index.
`copy.deepcopy` allocates a fresh object; `s2.red2blue()` mutates the
object its local name is bound to; `s1 = s1.random_rotate()` rebinds the
local name to a fresh rotated copy (modelled as overwriting the slot that
holds the working copy — either way the caller's objects are untouched). -/

/-- A Python object heap of seeds. -/
structure Store where
  seeds : List Seed

/-- Allocate a fresh object (`copy.deepcopy`): returns the new store and
the new object's address. -/
def salloc (st : Store) (s : Seed) : Store × Nat :=
  ({ seeds := st.seeds ++ [s] }, st.seeds.length)

/-- Overwrite the object at address `k`. -/
def swrite (st : Store) (k : Nat) (s : Seed) : Store :=
  { seeds := st.seeds.set k s }

/-- Read the object at address `k`. -/
def sread (st : Store) (k : Nat) : Seed :=
  st.seeds.getD k default

/-- Modelled from the spec: `Seed.red2blue` of the absent
`model_classes.py` — "Switch cells in the second seed (s2) from state 1
(red) to state 2 (blue)" (source line 213), mutating the receiver. -/
def red2blue (s : Seed) : Seed :=
  { s with cells := s.cells.map (fun col => col.map
      (fun c => if c = 1 then 2 else c)) }

/-- One iteration of the trial loop, as it acts on the heap (source lines
210-215): `s1 = s1.random_rotate(); s2 = s2.random_rotate();
s2.red2blue()`.  `rot t` is the randomized rotation/flip of trial `t`
(`random_rotate` returns a copy, so it is an arbitrary pure function of
the seed); `c1`/`c2` are the addresses of the two working copies. -/
def score_pair_trial_heap (rot : Nat → Seed → Seed) (st : Store)
    (c1 c2 t : Nat) : Store :=
  let st1 := swrite st c1 (rot t (sread st c1))
  let st2 := swrite st1 c2 (rot t (sread st1 c2))
  swrite st2 c2 (red2blue (sread st2 c2))

/-- The heap effect of `score_pair` (source lines 182-215): deep-copy both
input seeds on entry (`s1 = copy.deepcopy(seed1)`,
`s2 = copy.deepcopy(seed2)`), then rotate and recolor only the two copies,
once per trial.  Score arithmetic reads simulator counts and never writes
the heap. -/
def score_pair_heap (rot : Nat → Seed → Seed) (numTrials : Nat) (st : Store)
    (id1 id2 : Nat) : Store :=
  let a1 := salloc st (sread st id1)
  let a2 := salloc a1.1 (sread a1.1 id2)
  (List.range numTrials).foldl
    (fun st' t => score_pair_trial_heap rot st' a1.2 a2.2 t) a2.1

theorem sread_swrite_ne (st : Store) (k : Nat) (s : Seed) (a : Nat)
    (h : a ≠ k) : sread (swrite st k s) a = sread st a :=
  getD_set_ne _ _ _ _ _ h

/-- C10: `score_pair` never mutates its input seeds: after the call, the
caller's two objects are byte-identical to what they were on entry (all
rotations and the red-to-blue recoloring happen on the deep copies made on
entry), for every rotation oracle and trial count. -/
theorem score_pair_heap_frame (rot : Nat → Seed → Seed) (numTrials : Nat)
    (st : Store) (id1 id2 : Nat)
    (h1 : id1 < st.seeds.length) (h2 : id2 < st.seeds.length) :
    sread (score_pair_heap rot numTrials st id1 id2) id1 = sread st id1 ∧
    sread (score_pair_heap rot numTrials st id1 id2) id2 = sread st id2 := by
  unfold score_pair_heap salloc
  dsimp only
  have hbase1 : sread ⟨(st.seeds ++ [sread st id1]) ++
      [sread ⟨st.seeds ++ [sread st id1]⟩ id2]⟩ id1 = sread st id1 := by
    unfold sread
    rw [List.getD_append _ _ _ _ (by simpa using Nat.lt_succ_of_lt h1),
      List.getD_append _ _ _ _ h1]
  have hbase2 : sread ⟨(st.seeds ++ [sread st id1]) ++
      [sread ⟨st.seeds ++ [sread st id1]⟩ id2]⟩ id2 = sread st id2 := by
    unfold sread
    rw [List.getD_append _ _ _ _ (by simpa using Nat.lt_succ_of_lt h2),
      List.getD_append _ _ _ _ h2]
  have hc1 : id1 ≠ st.seeds.length := Nat.ne_of_lt h1
  have hc2 : id2 ≠ st.seeds.length := Nat.ne_of_lt h2
  have hc1' : id1 ≠ (st.seeds ++ [sread st id1]).length := by
    simp; omega
  have hc2' : id2 ≠ (st.seeds ++ [sread st id1]).length := by
    simp; omega
  apply foldl_inv (Q := fun st' =>
    sread st' id1 = sread st id1 ∧ sread st' id2 = sread st id2)
  · intro st' t _ hQ
    unfold score_pair_trial_heap
    constructor
    · rw [sread_swrite_ne _ _ _ _ (by simpa using hc1'),
        sread_swrite_ne _ _ _ _ (by simpa using hc1'),
        sread_swrite_ne _ _ _ _ hc1]
      exact hQ.1
    · rw [sread_swrite_ne _ _ _ _ (by simpa using hc2'),
        sread_swrite_ne _ _ _ _ (by simpa using hc2'),
        sread_swrite_ne _ _ _ _ hc2]
      exact hQ.2
  · exact ⟨hbase1, hbase2⟩

end Management

namespace Management

/-! ## Concrete instantiations -/

/-- A 1×1 live seed used to instantiate the score-pair contract. -/
def c1sA : Seed :=
  { xspan := 1, yspan := 1, cells := [[1]], num_living := 1,
    address := 0, history := [], similarities := [] }

/-- A second 1×1 live seed used to instantiate the score-pair contract. -/
def c1sB : Seed :=
  { xspan := 1, yspan := 1, cells := [[1]], num_living := 1,
    address := 1, history := [], similarities := [] }

/-- C1 witness: the score-pair contract at a concrete pair and one trial. -/
theorem score_pair_sum_one_witness :
    (score_pair c1sA c1sB [(3, 0)]).isSome = true ∧
    ((score_pair c1sA c1sB [(3, 0)]).getD (0, 0)).1 +
      ((score_pair c1sA c1sB [(3, 0)]).getD (0, 0)).2 = 1 ∧
    0 ≤ ((score_pair c1sA c1sB [(3, 0)]).getD (0, 0)).1 ∧
    ((score_pair c1sA c1sB [(3, 0)]).getD (0, 0)).1 ≤ 1 ∧
    0 ≤ ((score_pair c1sA c1sB [(3, 0)]).getD (0, 0)).2 ∧
    ((score_pair c1sA c1sB [(3, 0)]).getD (0, 0)).2 ≤ 1 :=
  score_pair_sum_one c1sA c1sB [(3, 0)] (by decide) (by decide) (by decide)

/-- An empty 1×1 seed (no living cells). -/
def c9empty : Seed :=
  { xspan := 1, yspan := 1, cells := [[0]], num_living := 0,
    address := 0, history := [], similarities := [] }

/-- A live 1×1 seed to pair with the empty one. -/
def c9live : Seed :=
  { xspan := 1, yspan := 1, cells := [[1]], num_living := 1,
    address := 1, history := [], similarities := [] }

/-- C9 witness: `score_pair` on an empty seed aborts (returns no score). -/
theorem score_pair_requires_living_witness :
    score_pair c9empty c9live [(3, 0)] = none :=
  score_pair_requires_living c9empty c9live [(3, 0)] (Or.inl rfl)

/-- C2 witness: on the concrete population, a full replacement leaves the
pair (0,1) complementary and the diagonal at 0.5. -/
theorem hist_complementary_witness :
    histEntry (replace_and_rebuild c2oracle c2pop 0 c2seedA) 0 1 +
      histEntry (replace_and_rebuild c2oracle c2pop 0 c2seedA) 1 0 = 1 ∧
    histEntry (replace_and_rebuild c2oracle c2pop 0 c2seedA) 0 0 = 1/2 := by
  have hwf : wfLens 2 c2pop := by
    refine ⟨rfl, ?_⟩
    intro t ht
    fin_cases ht <;> exact ⟨rfl, rfl⟩
  have hliv : allLiving c2pop := by
    intro t ht
    fin_cases ht <;> exact Nat.one_pos
  have hmain := hist_complementary_after_replace c2oracle c2pop 0 2 c2seedA
    hwf hliv (by omega) rfl rfl Nat.one_pos
    (fun j => by simp [c2oracle])
    (fun a b ha hb hai hbi hab => by omega)
    (fun a ha hai => by
      have : a = 1 := by omega
      subst this
      norm_num [histEntry, c2pop, c2seedB])
  exact ⟨hmain.1 0 1 (by omega) (by omega) (by omega),
    hmain.2 0 (by omega)⟩

/-- First member of the population used to instantiate the diagonal law. -/
def c5sA : Seed :=
  { xspan := 1, yspan := 1, cells := [[1]], num_living := 1,
    address := 0, history := [1/2, 1/2], similarities := [1, 1] }

/-- Second member of the population used to instantiate the diagonal law. -/
def c5sB : Seed :=
  { xspan := 1, yspan := 1, cells := [[1]], num_living := 1,
    address := 1, history := [1/2, 1/2], similarities := [1, 1] }

/-- The concrete population for the diagonal law. -/
def c5pop : List Seed := [c5sA, c5sB]

/-- The newly installed seed for the diagonal law; its bookkeeping rows
start at arbitrary values and must be overwritten by the rebuild. -/
def c5new : Seed :=
  { xspan := 1, yspan := 1, cells := [[1]], num_living := 1,
    address := 7, history := [1/4, 1/4], similarities := [0, 0] }

/-- C5 witness: after a concrete replacement, with an oracle supplying NO
trials at all, the diagonal entries are still 0.5 and 1.0. -/
theorem replace_diag_fixed_witness :
    histEntry (replace_and_rebuild (fun _ => []) c5pop 0 c5new) 0 0 = 1/2 ∧
    simEntry (replace_and_rebuild (fun _ => []) c5pop 0 c5new) 0 0 = 1 := by
  have hwf : wfLens 2 c5pop := by
    refine ⟨rfl, ?_⟩
    intro t ht
    fin_cases ht <;> exact ⟨rfl, rfl⟩
  exact replace_diag_fixed (fun _ => []) c5pop 0 2 c5new hwf
    (by omega) rfl rfl

/-- A 2×2 seed for the similarity laws. -/
def c6sA : Seed :=
  { xspan := 2, yspan := 2, cells := [[1, 0], [0, 1]], num_living := 2,
    address := 0, history := [], similarities := [] }

/-- A second 2×2 seed, agreeing with the first on two positions. -/
def c6sB : Seed :=
  { xspan := 2, yspan := 2, cells := [[1, 1], [1, 1]], num_living := 4,
    address := 1, history := [], similarities := [] }

/-- A 3×1 seed whose dimensions differ from the 2×2 seeds. -/
def c6s3 : Seed :=
  { xspan := 3, yspan := 1, cells := [[1], [1], [1]], num_living := 3,
    address := 2, history := [], similarities := [] }

/-- C6 witness: symmetry, the zero law on mismatched dimensions, and the
agreement fraction, at concrete seeds. -/
theorem similarity_props_witness :
    similarity c6sA c6sB = similarity c6sB c6sA ∧
    similarity c6sA c6s3 = 0 ∧
    similarity c6sA c6sB =
      (agreeCount c6sA c6sB : ℚ) / (c6sA.xspan * c6sA.yspan) :=
  ⟨(similarity_props c6sA c6sB).1,
    (similarity_props c6sA c6s3).2.1 (Or.inl (by decide)),
    (similarity_props c6sA c6sB).2.2 rfl rfl⟩

/-- A 3×1 seed whose sparse column splits it into an empty left part and a
two-column right part. -/
def c7sA : Seed :=
  { xspan := 3, yspan := 1, cells := [[0], [1], [0]], num_living := 1,
    address := 0, history := [], similarities := [] }

/-- A 3×2 seed on which neither side of the split is two columns wide. -/
def c7sB : Seed :=
  { xspan := 3, yspan := 2, cells := [[1, 0], [1, 0], [1, 0]],
    num_living := 3, address := 0, history := [], similarities := [] }

/-- C7 witness: the kept fragment is wide enough at a concrete seed, a too
narrow candidate falls back, and so does a candidate with no wide-enough
side. -/
theorem fission_min_width_witness :
    1 ≤ ([[1], [0]] : List (List Nat)).length ∧
    fission_choice true 5 c7sA = .sexualFallback ∧
    fission_choice true 2 c7sB = .sexualFallback :=
  ⟨(fission_min_width true 1 c7sA).1 [[1], [0]] (by decide),
    (fission_min_width true 5 c7sA).2.1 (by decide),
    (fission_min_width true 2 c7sB).2.2 (by decide) (by decide)⟩

/-- The concrete two-object heap for the frame law. -/
def c10store : Store := ⟨[c1sA, c1sB]⟩

/-- C10 witness: a concrete `score_pair` heap run (two trials, identity
rotations) leaves the caller's two objects unchanged. -/
theorem score_pair_heap_frame_witness :
    sread (score_pair_heap (fun _ s => s) 2 c10store 0 1) 0
      = sread c10store 0 ∧
    sread (score_pair_heap (fun _ s => s) 2 c10store 0 1) 1
      = sread c10store 1 :=
  score_pair_heap_frame (fun _ s => s) 2 c10store 0 1
    (by norm_num [c10store]) (by norm_num [c10store])

end Management
